import Mathlib

/-!
Verification development for the ScanSage-MCP PUBLIC Nmap ingestion pipeline.

The Lean definitions below are a shallow embedding of the Python sources:
  * `src/mcp_scansage/services/nmap_parser.py`
  * `src/mcp_scansage/services/nmap_ingest.py`
  * `src/mcp_scansage/services/nmap_ingest_store.py`
  * `src/mcp_scansage/mcp/server.py`

External library behaviour (Python `re`, `xml.etree`/`defusedxml`, `hashlib`,
`bytes.decode`) is represented by explicit function parameters; everything
written in the repository itself is translated directly.  All definitions are
structurally recursive so that concrete instances evaluate inside the kernel.
-/

/-! ## Character-list text helpers (models of the Python `str` primitives used) -/

/-- Model of Python `str.lower` restricted to ASCII (all strings compared by the
pipeline are ASCII tokens such as protocol and state names). -/
def lowerChar (c : Char) : Char :=
  if 65 ≤ c.toNat ∧ c.toNat ≤ 90 then Char.ofNat (c.toNat + 32) else c

/-- Model of Python `str.lower` on whole strings. -/
def pyLower (s : String) : String := String.mk (s.data.map lowerChar)

/-- ASCII whitespace recognised by Python `str.strip` / `str.splitlines`. -/
def isSpaceChar (c : Char) : Bool :=
  c == ' ' || c == '\t' || c == '\n' || c == '\r'

/-- Model of Python `str.strip` (whitespace removal at both ends). -/
def pyStrip (s : String) : String :=
  String.mk (((s.data.dropWhile isSpaceChar).reverse.dropWhile isSpaceChar).reverse)

/-- Worker for `pySplitlines`: accumulates the current (reversed) line. -/
def splitLinesAux : List Char → List Char → List String
  | acc, [] => if acc.isEmpty then [] else [String.mk acc.reverse]
  | acc, '\r' :: '\n' :: rest => String.mk acc.reverse :: splitLinesAux [] rest
  | acc, '\n' :: rest => String.mk acc.reverse :: splitLinesAux [] rest
  | acc, '\r' :: rest => String.mk acc.reverse :: splitLinesAux [] rest
  | acc, c :: rest => splitLinesAux (c :: acc) rest

/-- Model of Python `str.splitlines` (no trailing empty line). -/
def pySplitlines (s : String) : List String := splitLinesAux [] s.data

/-- Does `pat` start the given character list? -/
def hasPref : List Char → List Char → Bool
  | [], _ => true
  | _ :: _, [] => false
  | p :: ps, c :: cs => p == c && hasPref ps cs

/-- Does `pat` occur as a contiguous run of the character list? -/
def hasSub (pat : List Char) : List Char → Bool
  | [] => hasPref pat []
  | c :: cs => hasPref pat (c :: cs) || hasSub pat cs

/-- Substring containment on strings. -/
def strHasSub (pat s : String) : Bool := hasSub pat.data s.data

/-- Is `c` an ASCII decimal digit? -/
def isDigitChar (c : Char) : Bool := 48 ≤ c.toNat && c.toNat ≤ 57

/-- Numeric value accumulated from a digit list (most significant first). -/
def natOfDigitsAcc (acc : Nat) : List Char → Nat
  | [] => acc
  | c :: cs => natOfDigitsAcc (acc * 10 + (c.toNat - 48)) cs

/-- Model of Python `int(s)` on sign-and-digit strings: surrounding whitespace
is stripped, an optional sign is accepted, and anything else raises
`ValueError`, rendered here as `none`. -/
def pyIntOpt (s : String) : Option Int :=
  match (pyStrip s).data with
  | [] => none
  | '+' :: ds =>
      if ds ≠ [] ∧ ds.all isDigitChar then some (natOfDigitsAcc 0 ds) else none
  | '-' :: ds =>
      if ds ≠ [] ∧ ds.all isDigitChar then some (-(natOfDigitsAcc 0 ds : Int)) else none
  | ds => if ds.all isDigitChar then some (natOfDigitsAcc 0 ds) else none

/-! ## Element-tree model (`xml.etree.ElementTree.Element` subset used) -/

mutual
/-- An XML element: tag, attribute list, children in document order. -/
inductive Xml where
  | elem (tag : String) (attrs : List (String × String)) (children : XmlList)
/-- Child list of an element (mutual so all recursion stays structural). -/
inductive XmlList where
  | nil
  | cons (head : Xml) (tail : XmlList)
end

/-- Tag of an element. -/
def Xml.tag : Xml → String
  | .elem t _ _ => t

/-- Attribute list of an element. -/
def Xml.attrs : Xml → List (String × String)
  | .elem _ a _ => a

/-- First binding of key `k` in an attribute list (ET attributes are a dict). -/
def attrLookup (k : String) : List (String × String) → Option String
  | [] => none
  | (k2, v) :: rest => if k2 = k then some v else attrLookup k rest

/-- Model of `Element.get(key)`. -/
def Xml.get (x : Xml) (k : String) : Option String := attrLookup k x.attrs

/-- Model of `Element.get(key, default)`. -/
def Xml.getD (x : Xml) (k d : String) : String := (x.get k).getD d

/-- Child list as an ordinary `List`. -/
def XmlList.toList : XmlList → List Xml
  | .nil => []
  | .cons c rest => c :: rest.toList

/-- Children of an element as a `List`. -/
def Xml.children : Xml → List Xml
  | .elem _ _ cs => cs.toList

/-- Build an `XmlList` from a `List`. -/
def XmlList.ofList : List Xml → XmlList
  | [] => .nil
  | c :: rest => .cons c (XmlList.ofList rest)

/-- Model of `Element.find(tag)`: first direct child with the given tag. -/
def Xml.findChild (x : Xml) (t : String) : Option Xml :=
  x.children.find? fun c => c.tag == t

/-- Model of `Element.findall(tag)`: direct children with the given tag. -/
def Xml.childrenTagged (x : Xml) (t : String) : List Xml :=
  x.children.filter fun c => c.tag == t

mutual
/-- Model of `Element.findall(".//tag")` on an element: every strict
descendant with the given tag, in document (preorder) order. -/
def Xml.descTagged (t : String) : Xml → List Xml
  | .elem _ _ cs => XmlList.descTagged t cs
/-- `Xml.descTagged` lifted over a child list. -/
def XmlList.descTagged (t : String) : XmlList → List Xml
  | .nil => []
  | .cons c rest =>
      (if c.tag = t then [c] else []) ++ Xml.descTagged t c ++ XmlList.descTagged t rest
end

/-! ## Data model (`nmap_parser.py`, `cap_reason.py`, `nmap_limits.py`) -/

/-- `CapReason`: enumeration of the count-based limits. -/
inductive CapReason where
  | MAX_HOSTS
  | MAX_PORTS
  | MAX_FINDINGS
  | MAX_PAYLOAD_BYTES
deriving DecidableEq, Repr

/-- `CapReason.value`: the serialized string of each member. -/
def CapReason.value : CapReason → String
  | .MAX_HOSTS => "MAX_HOSTS"
  | .MAX_PORTS => "MAX_PORTS"
  | .MAX_FINDINGS => "MAX_FINDINGS"
  | .MAX_PAYLOAD_BYTES => "MAX_PAYLOAD_BYTES"

/-- `NmapLimitConfig`: the four configured ingest limits. -/
structure NmapLimitConfig where
  max_xml_bytes : Nat
  max_hosts : Nat
  max_ports_per_host : Nat
  max_findings : Nat
deriving DecidableEq, Repr

/-- The hard-coded default limits (`DEFAULT_NMAP_LIMITS`). -/
def DEFAULT_NMAP_LIMITS : NmapLimitConfig :=
  { max_xml_bytes := 32768, max_hosts := 64, max_ports_per_host := 128, max_findings := 100 }

/-- A finding sort key `(host_index, port_index, numeric_port, lowercased_service)`.
`numeric_port` is an `Int` because `int(port_id)` accepts signed strings. -/
abbrev SortKey : Type := Nat × Nat × Int × String

/-- `ParsedFinding`: the PUBLIC-safe finding value.  `title` and `detail` are
stored after identifier redaction (`__post_init__`). -/
structure ParsedFinding where
  title : String
  detail : String
  confidence : String
  sortKey : SortKey
deriving DecidableEq

/-- Construct a `ParsedFinding`, applying the redaction transform to `title`
and `detail` exactly as `ParsedFinding.__post_init__` does.  The redaction
regex engine is a parameter `redact`. -/
def mkParsedFinding (redact : String → String)
    (title detail confidence : String) (sortKey : SortKey) : ParsedFinding :=
  { title := redact title, detail := redact detail, confidence := confidence,
    sortKey := sortKey }

/-- `CapInfo`: immutable snapshot of the tracker at end of parsing. -/
structure CapInfo where
  reason : Option CapReason
  hosts_processed : Nat
  ports_processed : Nat
  findings_processed : Nat
  max_hosts : Nat
  max_ports_per_host : Nat
  max_findings : Nat
deriving DecidableEq

/-- `CapInfo.capped`: whether any reason was recorded. -/
def CapInfo.capped (ci : CapInfo) : Bool := ci.reason.isSome

/-- `ParsedNmapResult`: output of every parser variant. -/
structure ParsedNmapResult where
  parsed : Bool
  findings : List ParsedFinding
  parser_version : String
  cap_info : Option CapInfo := none
deriving DecidableEq

/-! ## XML safety gate (`parse_xml_safely`) -/

/-- The hardened low-level XML library (defusedxml / ElementTree `fromstring`),
an external collaborator: `none` models a parse exception. -/
structure XmlLib where
  fromstring : String → Option Xml

/-- Model of `_UNSAFE_XML_PATTERN.search`: case-insensitive occurrence of
`<!DOCTYPE` or `<!ENTITY` in the raw text. -/
def forbiddenXmlSearch (s : String) : Bool :=
  strHasSub "<!doctype" (pyLower s) || strHasSub "<!entity" (pyLower s)

/-- `parse_xml_safely(xml_bytes)` over raw bytes.  The four `ValueError`
messages of the source are the `Except.error` payloads; `decodeUtf8` is the
external `bytes.decode("utf-8")` (`none` = `UnicodeDecodeError`). -/
def parse_xml_safely (decodeUtf8 : List Nat → Option String) (lib : XmlLib)
    (maxBytes : Nat) (xml_bytes : List Nat) : Except String Xml :=
  if xml_bytes.length > maxBytes then
    .error "XML payload exceeds the maximum allowed size."
  else
    match decodeUtf8 xml_bytes with
    | none => .error "XML payload is not valid UTF-8."
    | some text =>
      if forbiddenXmlSearch text then .error "XML payload contains forbidden declarations."
      else
        match lib.fromstring text with
        | none => .error "Malformed XML payload."
        | some root => .ok root

/-- `parse_xml_safely` as invoked from the ingestion pipeline, where the bytes
are the UTF-8 encoding of the request's payload string (so the byte count is
`utf8ByteSize` and decoding always restores the same text). -/
def parseXmlSafelyText (lib : XmlLib) (maxBytes : Nat) (payload : String) :
    Except String Xml :=
  if payload.utf8ByteSize > maxBytes then
    .error "XML payload exceeds the maximum allowed size."
  else if forbiddenXmlSearch payload then
    .error "XML payload contains forbidden declarations."
  else
    match lib.fromstring payload with
    | none => .error "Malformed XML payload."
    | some root => .ok root

/-! ## Parser variants (`nmap_parser.py`) -/

/-- `NoopNmapParser.parse`: never emits findings. -/
def noopParse (_payload : String) : ParsedNmapResult :=
  { parsed := false, findings := [], parser_version := "noop-0.1" }

/-- `SafeNmapXmlParser.parse`: enforces the safety boundary only. -/
def safeXmlParse (lib : XmlLib) (maxBytes : Nat) (payload : String) :
    Except String ParsedNmapResult :=
  match parseXmlSafelyText lib maxBytes payload with
  | .error e => .error e
  | .ok _ => .ok { parsed := false, findings := [], parser_version := "safe-xml-0.1" }

/-- Loop body of `SyntheticNmapParser.parse` over the split lines.
`identMatch` is the external verdict of `IDENTIFIER_PATTERN.search` and
`portMatch` the external verdict of `_PORT_PATTERN.match` (the two captured
groups on success).  `idx` is the running `line_index`. -/
def syntheticLines (redact : String → String) (identMatch : String → Bool)
    (portMatch : String → Option (String × String)) :
    Nat → List String → Except String (List ParsedFinding)
  | _, [] => .ok []
  | idx, l :: rest =>
    let line := pyStrip l
    if line = "" then syntheticLines redact identMatch portMatch idx rest
    else if identMatch line then syntheticLines redact identMatch portMatch idx rest
    else
      match portMatch line with
      | none => .error "Synthetic payload line malformed."
      | some (port, service) =>
        let f := mkParsedFinding redact ("Port " ++ port ++ " open")
          (pyLower service ++ " service noted on TCP/" ++ port) "medium"
          (0, idx, ((pyIntOpt port).getD 0 : Int), pyLower service)
        match syntheticLines redact identMatch portMatch (idx + 1) rest with
        | .error e => .error e
        | .ok fs => .ok (f :: fs)

/-- `SyntheticNmapParser.parse`.  The payload string is the decoded UTF-8 text
(the server hands the parser the encoding of a request string, so decoding
cannot fail on this path); an empty payload short-circuits. -/
def syntheticParse (redact : String → String) (identMatch : String → Bool)
    (portMatch : String → Option (String × String)) (payload : String) :
    Except String ParsedNmapResult :=
  if payload = "" then
    .ok { parsed := false, findings := [], parser_version := "synthetic_v1" }
  else
    match syntheticLines redact identMatch portMatch 0 (pySplitlines payload) with
    | .error e => .error e
    | .ok fs =>
      .ok { parsed := !fs.isEmpty, findings := fs, parser_version := "synthetic_v1" }

/-- `_LimitTracker`: running counts plus the most recent cap reason. -/
structure LimitTracker where
  maxHosts : Nat
  maxPortsPerHost : Nat
  maxFindings : Nat
  hostsProcessed : Nat
  portsProcessed : Nat
  findingsProcessed : Nat
  capReason : Option CapReason
deriving DecidableEq

/-- Fresh tracker from a limit configuration (`_LimitTracker.__init__`). -/
def initTracker (cfg : NmapLimitConfig) : LimitTracker :=
  { maxHosts := cfg.max_hosts, maxPortsPerHost := cfg.max_ports_per_host,
    maxFindings := cfg.max_findings, hostsProcessed := 0, portsProcessed := 0,
    findingsProcessed := 0, capReason := none }

/-- `_LimitTracker.to_cap_info`. -/
def LimitTracker.toCapInfo (tr : LimitTracker) : CapInfo :=
  { reason := tr.capReason, hosts_processed := tr.hostsProcessed,
    ports_processed := tr.portsProcessed, findings_processed := tr.findingsProcessed,
    max_hosts := tr.maxHosts, max_ports_per_host := tr.maxPortsPerHost,
    max_findings := tr.maxFindings }

/-- `MinimalNmapXmlParser._finding_from_port`: sequential early returns of the
source, kept in order. -/
def finding_from_port (redact : String → String) (p : Xml)
    (hostIndex portIndex : Nat) : Option ParsedFinding :=
  if pyLower (p.getD "protocol" "") ≠ "tcp" then none
  else
    match p.findChild "state" with
    | none => none
    | some st =>
      if pyLower (st.getD "state" "") ≠ "open" then none
      else
        match p.get "portid" with
        | none => none
        | some portId =>
          if portId = "" then none
          else
            match p.findChild "service" with
            | none => none
            | some se =>
              match se.get "name" with
              | none => none
              | some serviceName =>
                if serviceName = "" then none
                else
                  let detailParts := [serviceName]
                    ++ (match se.get "product" with
                        | some s => if s = "" then [] else [s]
                        | none => [])
                    ++ (match se.get "version" with
                        | some s => if s = "" then [] else [s]
                        | none => [])
                    ++ (match se.get "extrainfo" with
                        | some s => if s = "" then [] else [s]
                        | none => [])
                  let detail := String.intercalate " " detailParts
                    ++ " service noted on TCP/" ++ portId
                  let portNumber : Int := (pyIntOpt portId).getD 0
                  some (mkParsedFinding redact ("Port " ++ portId ++ " open")
                    detail "medium"
                    (hostIndex, portIndex, portNumber, pyLower serviceName))

/-- Inner loop of `MinimalNmapXmlParser.parse` over one host's port elements.
Returns the updated tracker, the accumulated findings, and the
`stop_due_to_findings` flag. -/
def processPorts (redact : String → String) (hostIndex : Nat) :
    LimitTracker → Nat → Nat → List ParsedFinding → List Xml →
    LimitTracker × List ParsedFinding × Bool
  | tr, _, _, acc, [] => (tr, acc, false)
  | tr, portIndex, portsSeen, acc, p :: rest =>
    if portsSeen ≥ tr.maxPortsPerHost then
      ({ tr with capReason := some .MAX_PORTS }, acc, false)
    else
      let tr1 := { tr with portsProcessed := tr.portsProcessed + 1 }
      if tr1.findingsProcessed ≥ tr1.maxFindings then
        ({ tr1 with capReason := some .MAX_FINDINGS }, acc, true)
      else
        match finding_from_port redact p hostIndex portIndex with
        | none => processPorts redact hostIndex tr1 (portIndex + 1) (portsSeen + 1) acc rest
        | some f =>
          let tr2 := { tr1 with findingsProcessed := tr1.findingsProcessed + 1 }
          let acc2 := acc ++ [f]
          if tr2.findingsProcessed ≥ tr2.maxFindings then
            ({ tr2 with capReason := some .MAX_FINDINGS }, acc2, true)
          else processPorts redact hostIndex tr2 (portIndex + 1) (portsSeen + 1) acc2 rest

/-- Outer loop of `MinimalNmapXmlParser.parse` over the host elements. -/
def processHosts (redact : String → String) :
    LimitTracker → Nat → List ParsedFinding → List Xml →
    LimitTracker × List ParsedFinding
  | tr, _, acc, [] => (tr, acc)
  | tr, hostIndex, acc, h :: rest =>
    if tr.hostsProcessed ≥ tr.maxHosts then
      ({ tr with capReason := some .MAX_HOSTS }, acc)
    else
      let tr1 := { tr with hostsProcessed := tr.hostsProcessed + 1 }
      match h.findChild "ports" with
      | none => processHosts redact tr1 (hostIndex + 1) acc rest
      | some ports =>
        match processPorts redact hostIndex tr1 0 0 acc (ports.childrenTagged "port") with
        | (tr2, acc2, stop) =>
          if stop then (tr2, acc2)
          else processHosts redact tr2 (hostIndex + 1) acc2 rest

/-- `MinimalNmapXmlParser.parse` after the safety gate: walk the element tree
under the limit tracker. -/
def minimalRealWalk (redact : String → String) (cfg : NmapLimitConfig)
    (root : Xml) : ParsedNmapResult :=
  match processHosts redact (initTracker cfg) 0 [] (root.descTagged "host") with
  | (tr, findings) =>
    { parsed := !findings.isEmpty, findings := findings,
      parser_version := "real-minimal-0.2",
      cap_info := if tr.capReason.isSome then some tr.toCapInfo else none }

/-- `MinimalNmapXmlParser.parse` including the safety gate. -/
def minimalRealParse (redact : String → String) (lib : XmlLib)
    (cfg : NmapLimitConfig) (payload : String) : Except String ParsedNmapResult :=
  match parseXmlSafelyText lib cfg.max_xml_bytes payload with
  | .error e => .error e
  | .ok root => .ok (minimalRealWalk redact cfg root)

/-! ## Deterministic ordering (`stable_findings_sort_key` + Python `sorted`) -/

/-- Strict lexicographic order on character lists by code point, as Python
compares strings. -/
def chlLt : List Char → List Char → Bool
  | [], [] => false
  | [], _ :: _ => true
  | _ :: _, [] => false
  | a :: as, b :: bs => decide (a.toNat < b.toNat) || (a == b && chlLt as bs)

/-- Non-strict string comparison used by the stable sort. -/
def strLeB (a b : String) : Bool := !chlLt b.data a.data

/-- Non-strict lexicographic comparison of sort keys, matching Python tuple
comparison `(host, port, num, service) <= ...`. -/
def sortKeyLe (a b : SortKey) : Bool :=
  if a.1 = b.1 then
    if a.2.1 = b.2.1 then
      if a.2.2.1 = b.2.2.1 then strLeB a.2.2.2 b.2.2.2
      else decide (a.2.2.1 < b.2.2.1)
    else decide (a.2.1 < b.2.1)
  else decide (a.1 < b.1)

/-- `stable_findings_sort_key`: the ordering key of a finding. -/
def stable_findings_sort_key (f : ParsedFinding) : SortKey := f.sortKey

/-- Comparator on findings induced by `stable_findings_sort_key`, as used by
`sorted(findings, key=stable_findings_sort_key)` (a stable sort). -/
def findingLe (a b : ParsedFinding) : Bool :=
  sortKeyLe (stable_findings_sort_key a) (stable_findings_sort_key b)

/-- The ordering-and-truncation step of `_apply_findings_limit`: sort by
`sort_key` ascending (stable), cut to `max_findings` when over the limit. -/
def orderAndTruncate (cfg : NmapLimitConfig) (findings : List ParsedFinding) :
    List ParsedFinding :=
  let ordered := findings.mergeSort findingLe
  if ordered.length > cfg.max_findings then ordered.take cfg.max_findings else ordered

/-! ## Cap audit events and caps metadata (`cap_audit.py`, `nmap_ingest.py`) -/

/-- `record_cap_event` entry: the event dictionary that is appended to both
audit sinks. -/
structure CapEvent where
  event : String
  cap_reason : String
  limits : List (String × Nat)
  counts_seen : List (String × Nat)
  counts_returned : List (String × Nat)
deriving DecidableEq

/-- Python dict update `d[k] = v` on an association list: replaces the first
binding of `k`, otherwise appends. -/
def dictSet (k : String) (v : Nat) : List (String × Nat) → List (String × Nat)
  | [] => [(k, v)]
  | (k2, v2) :: rest => if k2 = k then (k, v) :: rest else (k2, v2) :: dictSet k v rest

/-- Python dict read `d[k]` on an association list. -/
def dictGet (k : String) : List (String × Nat) → Option Nat
  | [] => none
  | (k2, v) :: rest => if k2 = k then some v else dictGet k rest

/-- `_build_cap_limits`. -/
def build_cap_limits (cfg : NmapLimitConfig) : List (String × Nat) :=
  [("max_payload_bytes", cfg.max_xml_bytes), ("max_hosts", cfg.max_hosts),
   ("max_ports_per_host", cfg.max_ports_per_host), ("max_findings", cfg.max_findings)]

/-- `_counts_returned_from_findings`. -/
def counts_returned_from_findings (findings : List ParsedFinding) :
    List (String × Nat) :=
  [("hosts_returned", ((findings.map fun f => f.sortKey.1).dedup).length),
   ("ports_returned", findings.length),
   ("findings_returned", findings.length)]

/-- `_emit_cap_event` / `record_cap_event`: the single event produced. -/
def emit_cap_event (reason : String) (cfg : NmapLimitConfig)
    (counts_seen : List (String × Nat)) (final_findings : List ParsedFinding) :
    CapEvent :=
  { event := "NMAP_INGEST_CAP_APPLIED", cap_reason := reason,
    limits := build_cap_limits cfg, counts_seen := counts_seen,
    counts_returned := counts_returned_from_findings final_findings }

/-- The `caps` block of `_build_caps_metadata` (`capped` is always true when
the block exists, so it is not stored separately). -/
structure CapsBlock where
  cap_reason : CapReason
  max_hosts : Nat
  max_ports_per_host : Nat
  max_findings : Nat
  counts : Option (List (String × Nat))
deriving DecidableEq

/-- `_build_caps_metadata`: `counts` is attached only when non-empty
(`if counts:`). -/
def build_caps_metadata (reason : CapReason) (cfg : NmapLimitConfig)
    (counts : Option (List (String × Nat))) : CapsBlock :=
  { cap_reason := reason, max_hosts := cfg.max_hosts,
    max_ports_per_host := cfg.max_ports_per_host, max_findings := cfg.max_findings,
    counts :=
      match counts with
      | some l => if l.isEmpty then none else some l
      | none => none }

/-- `_apply_findings_limit`: truncate parser findings, prepare cap metadata,
and emit the cap audit event when a reason was determined.  Returns the final
findings, the optional metadata block, and the emitted events. -/
def apply_findings_limit (r : ParsedNmapResult) (cfg : NmapLimitConfig) :
    List ParsedFinding × Option CapsBlock × List CapEvent :=
  let ordered := r.findings.mergeSort findingLe
  let raw_count := ordered.length
  let truncated := raw_count > cfg.max_findings
  let final_findings := if truncated then ordered.take cfg.max_findings else ordered
  let fromCapInfo : Option CapReason × Option (List (String × Nat)) :=
    match r.cap_info with
    | some ci =>
      if ci.capped then
        (ci.reason,
         some [("hosts_processed", ci.hosts_processed),
               ("ports_processed", ci.ports_processed),
               ("findings_processed", ci.findings_processed)])
      else (none, none)
    | none => (none, none)
  let reasonCounts : Option CapReason × Option (List (String × Nat)) :=
    if truncated then
      (some CapReason.MAX_FINDINGS,
       some (dictSet "findings_processed" raw_count (fromCapInfo.2.getD [])))
    else fromCapInfo
  match reasonCounts.1 with
  | none => (final_findings, none, [])
  | some reason =>
    (final_findings,
     some (build_caps_metadata reason cfg reasonCounts.2),
     [emit_cap_event reason.value cfg (reasonCounts.2.getD []) final_findings])

/-! ## PUBLIC ingestion (`ingest_nmap_public`) and server envelope (`server.py`) -/

/-- Rendering of one finding by `ParsedFinding.to_mapping`. -/
structure FindingMap where
  title : String
  detail : String
  confidence : String
deriving DecidableEq

/-- `ParsedFinding.to_mapping`. -/
def ParsedFinding.to_mapping (f : ParsedFinding) : FindingMap :=
  { title := f.title, detail := f.detail, confidence := f.confidence }

/-- The fixed `NEXT_STEPS` guidance strings. -/
def NEXT_STEPS : List String :=
  ["Await a dedicated parser before acting on any findings.",
   "Confirm the ingestion digest matches downstream expectations."]

/-- The success dictionary built by `ingest_nmap_public`.  `metadata` is the
optional caps block (`if metadata:` attaches the key exactly when the block
exists). -/
structure IngestResponse where
  operation : String
  ingest_id : String
  format : String
  summary_payload_bytes : Nat
  summary_payload_sha256 : String
  summary_parsed : Bool
  findings : List String
  next_steps : List String
  parser_version : String
  findings_count : Nat
  parsed_findings : List FindingMap
  metadata : Option CapsBlock
deriving DecidableEq

/-- Failure modes of `ingest_nmap_public`: `PayloadTooLargeError` or a
`ValueError` (unsupported format, or an error raised by the parser). -/
inductive IngestFail where
  | tooLarge
  | invalid (msg : String)
deriving DecidableEq

/-- `ingest_nmap_public` (record persistence, a file side effect handled by
the store module modelled separately below, is not part of the returned
value).  `sha` models `hashlib.sha256(...).hexdigest()` and `ingestId` the
generated `uuid4` hex; `parse` is the selected parser's `parse` on the
payload.  Returns the outcome together with every emitted cap audit event. -/
def ingest_nmap_public (sha : String → String) (ingestId : String)
    (parse : String → Except String ParsedNmapResult) (cfg : NmapLimitConfig)
    (format payload : String) : Except IngestFail IngestResponse × List CapEvent :=
  if format ≠ "nmap_xml" ∧ format ≠ "synthetic_v1" then
    (.error (.invalid "Unsupported format for PUBLIC ingestion."), [])
  else
    let byte_count := payload.utf8ByteSize
    if byte_count > cfg.max_xml_bytes then
      (.error .tooLarge,
       [emit_cap_event CapReason.MAX_PAYLOAD_BYTES.value cfg
         [("payload_bytes", byte_count)] []])
    else
      match parse payload with
      | .error e => (.error (.invalid e), [])
      | .ok parser_result =>
        match apply_findings_limit parser_result cfg with
        | (final_findings, metadata, events) =>
          (.ok {
            operation := "nmap_ingest",
            ingest_id := ingestId,
            format := format,
            summary_payload_bytes := byte_count,
            summary_payload_sha256 := sha payload,
            summary_parsed := parser_result.parsed,
            findings := [],
            next_steps := NEXT_STEPS,
            parser_version := parser_result.parser_version,
            findings_count := final_findings.length,
            parsed_findings := final_findings.map ParsedFinding.to_mapping,
            metadata := metadata }, events)

/-- The three parser implementations reachable from the `nmap_xml` request
path via `get_configured_nmap_parser`: `NoopNmapParser` (default),
`SafeNmapXmlParser` (`safe_xml`), `MinimalNmapXmlParser` (`real_minimal`). -/
inductive ParserKind where
  | noop
  | safeXml
  | realMinimal
deriving DecidableEq

/-- Dispatch of the configured parser's `parse`. -/
def parserFun (pk : ParserKind) (redact : String → String) (lib : XmlLib)
    (cfg : NmapLimitConfig) : String → Except String ParsedNmapResult :=
  match pk with
  | .noop => fun payload => .ok (noopParse payload)
  | .safeXml => fun payload => safeXmlParse lib cfg.max_xml_bytes payload
  | .realMinimal => fun payload => minimalRealParse redact lib cfg payload

/-- A served response: either the sanitized error envelope of
`_sanitized_error` or the success dictionary. -/
inductive Served where
  | errorResp (status reason detail : String)
  | okResp (resp : IngestResponse)
deriving DecidableEq

/-- Is the served response an error envelope? -/
def Served.isError : Served → Bool
  | .errorResp _ _ _ => true
  | .okResp _ => false

/-- `_sanitized_error`: `sanitize_public_response` applies the scrubbing
transform (`scrub`, the external regex substitutions) to every value. -/
def sanitized_error (scrub : String → String) (reason detail : String) : Served :=
  .errorResp (scrub "error") (scrub reason) (scrub detail)

/-- `NmapIngestResource.ingest` for a request of format `"nmap_xml"` whose
input-schema validation outcome is `inputSchemaOk` and whose response-schema
validation outcome is `outputSchemaOk` (the schema registry is an external
collaborator).  `pk` is the parser selected by `get_configured_nmap_parser`
from the environment. -/
def server_ingest_nmap_xml (scrub redact : String → String)
    (sha : String → String) (ingestId : String) (pk : ParserKind) (lib : XmlLib)
    (cfg : NmapLimitConfig) (inputSchemaOk outputSchemaOk : Bool)
    (payload : String) : Served × List CapEvent :=
  if !inputSchemaOk then
    (sanitized_error scrub "invalid_input" "Request failed validation.", [])
  else
    match ingest_nmap_public sha ingestId (parserFun pk redact lib cfg) cfg
        "nmap_xml" payload with
    | (.error .tooLarge, events) =>
      (sanitized_error scrub "payload_too_large" "Payload exceeds the allowed size.",
       events)
    | (.error (.invalid _), events) =>
      (sanitized_error scrub "invalid_input" "Unable to process the ingestion payload.",
       events)
    | (.ok resp, events) =>
      if !outputSchemaOk then
        (sanitized_error scrub "response_validation_failed"
          "Service output did not meet the public contract.", events)
      else (.okResp resp, events)

/-- Every string value that appears in the serialization of a served
response (keys are fixed schema identifiers; numeric and boolean values
cannot contain a text marker). -/
def Served.strings : Served → List String
  | .errorResp status reason detail => [status, reason, detail]
  | .okResp r =>
    [r.operation, r.ingest_id, r.format, r.summary_payload_sha256]
      ++ r.findings ++ r.next_steps ++ [r.parser_version]
      ++ (r.parsed_findings.flatMap fun f => [f.title, f.detail, f.confidence])
      ++ (match r.metadata with
          | some caps =>
            [caps.cap_reason.value] ++ (caps.counts.getD []).map Prod.fst
          | none => [])

/-! ## Retention store (`nmap_ingest_store.py`) -/

/-- `MAX_STORED_RECORDS`. -/
def MAX_STORED_RECORDS : Nat := 16

/-- The nested `summary` dictionary of a persisted record. -/
structure RecordSummary where
  payload_bytes : Nat
  payload_sha256 : String
  parsed : Bool
deriving DecidableEq

/-- A persisted ingestion record. -/
structure IngestRecord where
  ingest_id : String
  created_at : String
  format : String
  summary : RecordSummary
  next_steps : List String
  parser_version : String
  parsed : Bool
  findings_count : Nat
deriving DecidableEq

/-- `persist_ingest_record`: build the record (note the literal `False` in
the nested summary in the source), append it, and cut the list to the last
`MAX_STORED_RECORDS` entries.  The JSON file is modelled by explicit state
passing of the record list; `created_at` is the external clock reading. -/
def persist_ingest_record (ingest_id format : String) (payload_bytes : Nat)
    (payload_sha256 : String) (parsed : Bool) (findings_count : Nat)
    (parser_version : String) (next_steps : List String) (created_at : String)
    (records : List IngestRecord) : IngestRecord × List IngestRecord :=
  let record : IngestRecord :=
    { ingest_id := ingest_id, created_at := created_at, format := format,
      summary := { payload_bytes := payload_bytes, payload_sha256 := payload_sha256,
                   parsed := false },
      next_steps := next_steps, parser_version := parser_version,
      parsed := parsed, findings_count := findings_count }
  let records1 := records ++ [record]
  let records2 :=
    if records1.length > MAX_STORED_RECORDS then
      records1.drop (records1.length - MAX_STORED_RECORDS)
    else records1
  (record, records2)

/-- `list_ingests`: newest-first (reversed storage order), limited.  A `none`
limit models the omitted argument. -/
def list_ingests (limit : Option Int) (records : List IngestRecord) :
    List IngestRecord :=
  let newest := records.reverse
  let lim : Int :=
    match limit with
    | none => (MAX_STORED_RECORDS : Int)
    | some l => max (min l (MAX_STORED_RECORDS : Int)) 0
  newest.take lim.toNat


/-! ## Derived predicates used in the statements -/

/-- Whether `_apply_findings_limit` determines a cap reason for a parse
result: the parser recorded one, or post-parse truncation occurs. -/
def capDetermined (r : ParsedNmapResult) (cfg : NmapLimitConfig) : Bool :=
  (match r.cap_info with
   | some ci => ci.capped
   | none => false) || decide (r.findings.length > cfg.max_findings)

/-- The payload marker `<!DOCTYPE` is absent from a string. -/
def noDoctype (s : String) : Bool := !strHasSub "<!DOCTYPE" s

/-- A host element carrying exactly one `port` child under `ports`, and that
port yields a finding (open TCP with portid and service name). -/
def singleOpenTcpHost (h : Xml) : Bool :=
  match h.findChild "ports" with
  | some ports =>
    match ports.childrenTagged "port" with
    | [p] => (finding_from_port (fun s => s) p 0 0).isSome
    | _ => false
  | none => false

/-! ## Concrete fixtures for witnesses and counterexamples -/

/-- Element constructor from an ordinary child list. -/
def mkElem (t : String) (attrs : List (String × String)) (cs : List Xml) : Xml :=
  .elem t attrs (XmlList.ofList cs)

/-- Identity string transform (used to instantiate the external regex
substitutions at concrete inputs). -/
def idStr : String → String := fun s => s

/-- Digest stub. -/
def shaStub : String → String := fun _ => "digest"

/-- XML library stub whose low-level parse always fails. -/
def libNone : XmlLib := { fromstring := fun _ => none }

/-- A trivial well-formed element. -/
def elemA : Xml := mkElem "a" [] []

/-- XML library stub whose low-level parse always yields `elemA`. -/
def libOk : XmlLib := { fromstring := fun _ => some elemA }

/-- A host carrying exactly one open TCP port 22 running ssh. -/
def sshHost : Xml :=
  mkElem "host" []
    [mkElem "ports" []
      [mkElem "port" [("protocol", "tcp"), ("portid", "22")]
        [mkElem "state" [("state", "open")] [],
         mkElem "service" [("name", "ssh")] []]]]

/-- Ten ssh hosts under one root. -/
def rootTenHosts : Xml := mkElem "nmaprun" [] (List.replicate 10 sshHost)

/-- Limit configuration with `max_findings = 6` and non-binding host/port
limits. -/
def cfgSix : NmapLimitConfig :=
  { max_xml_bytes := 32768, max_hosts := 64, max_ports_per_host := 128, max_findings := 6 }

/-- XML library stub that always returns the ten-host tree. -/
def libTen : XmlLib := { fromstring := fun _ => some rootTenHosts }

/-- An up host with one open TCP port 22 (ssh) and one closed TCP port 23. -/
def upHostExample : Xml :=
  mkElem "host" []
    [mkElem "status" [("state", "up")] [],
     mkElem "address" [("addr", "h1")] [],
     mkElem "ports" []
       [mkElem "port" [("protocol", "tcp"), ("portid", "22")]
          [mkElem "state" [("state", "open")] [],
           mkElem "service" [("name", "ssh"), ("product", "OpenSSH"), ("version", "9.4")] []],
        mkElem "port" [("protocol", "tcp"), ("portid", "23")]
          [mkElem "state" [("state", "closed")] [],
           mkElem "service" [("name", "telnet")] []]]]

/-- A host with status `down` that still carries an open TCP port 80. -/
def downHostExample : Xml :=
  mkElem "host" []
    [mkElem "status" [("state", "down")] [],
     mkElem "address" [("addr", "h2")] [],
     mkElem "ports" []
       [mkElem "port" [("protocol", "tcp"), ("portid", "80")]
          [mkElem "state" [("state", "open")] [],
           mkElem "service" [("name", "http"), ("product", "nginx"), ("version", "1.21")] []]]]

/-- The two-host document of the repository regression test for host-status
filtering. -/
def rootStatusExample : Xml := mkElem "nmaprun" [] [upHostExample, downHostExample]

/-- Identifier matcher stub for the synthetic parser witness. -/
def identStub : String → Bool := fun s => s == "skip me"

/-- Port-line matcher stub for the synthetic parser witness. -/
def portStub : String → Option (String × String) :=
  fun s => if s == "ok" then some ("22", "ssh") else none

/-- A parser stub returning the no-op result. -/
def parseNoopStub : String → Except String ParsedNmapResult :=
  fun _ => .ok (noopParse "")

/-- Decoder stub that always succeeds with a fixed short document. -/
def decodeStub : List Nat → Option String := fun _ => some "<a/>"

/-- A concrete finding with the smaller sort key. -/
def findingA : ParsedFinding :=
  { title := "Port 22 open", detail := "ssh service noted on TCP/22",
    confidence := "medium", sortKey := (0, 0, 22, "ssh") }

/-- A concrete finding with the larger sort key. -/
def findingB : ParsedFinding :=
  { title := "Port 80 open", detail := "http service noted on TCP/80",
    confidence := "medium", sortKey := (0, 1, 80, "http") }

/-- A parse result with two findings and a parser-recorded `MAX_HOSTS` cap. -/
def resultTwoCapped : ParsedNmapResult :=
  { parsed := true, findings := [findingA, findingB],
    parser_version := "real-minimal-0.2",
    cap_info := some { reason := some .MAX_HOSTS, hosts_processed := 2,
                       ports_processed := 2, findings_processed := 2,
                       max_hosts := 2, max_ports_per_host := 128,
                       max_findings := 100 } }

/-- Limits with `max_findings = 1`. -/
def cfgOne : NmapLimitConfig :=
  { max_xml_bytes := 32768, max_hosts := 64, max_ports_per_host := 128,
    max_findings := 1 }

/-- UTF-8 bytes of the short document returned by `decodeStub`. -/
def bytesA : List Nat := [60, 97, 47, 62]

/-! ## Order-theoretic facts about the comparator -/

/-- `chlLt` is asymmetric. -/
theorem chlLt_asymm : ∀ a b, chlLt a b = true → chlLt b a = false := by
  intro a
  induction a with
  | nil => intro b h; cases b <;> simp [chlLt]
  | cons x xs ih =>
    intro b h
    cases b with
    | nil => simp [chlLt] at h
    | cons y ys =>
      simp only [chlLt, Bool.or_eq_true, decide_eq_true_eq, Bool.and_eq_true,
        beq_iff_eq] at h
      simp only [chlLt, Bool.or_eq_false_iff, decide_eq_false_iff_not,
        Bool.and_eq_false_iff, beq_eq_false_iff_ne, ne_eq]
      rcases h with h | ⟨rfl, h⟩
      · refine ⟨by omega, Or.inl ?_⟩
        intro hEq; subst hEq; omega
      · exact ⟨by omega, Or.inr (ih ys h)⟩

/-- `chlLt` is transitive. -/
theorem chlLt_trans : ∀ a b c, chlLt a b = true → chlLt b c = true →
    chlLt a c = true := by
  intro a
  induction a with
  | nil =>
    intro b c hab hbc
    cases b with
    | nil => simp [chlLt] at hab
    | cons y ys => cases c with
      | nil => simp [chlLt] at hbc
      | cons z zs => simp [chlLt]
  | cons x xs ih =>
    intro b c hab hbc
    cases b with
    | nil => simp [chlLt] at hab
    | cons y ys =>
      cases c with
      | nil => simp [chlLt] at hbc
      | cons z zs =>
        simp only [chlLt, Bool.or_eq_true, decide_eq_true_eq, Bool.and_eq_true,
          beq_iff_eq] at hab hbc ⊢
        rcases hab with h1 | ⟨rfl, h1⟩
        · rcases hbc with h2 | ⟨rfl, h2⟩
          · exact Or.inl (by omega)
          · exact Or.inl h1
        · rcases hbc with h2 | ⟨rfl, h2⟩
          · exact Or.inl h2
          · exact Or.inr ⟨rfl, ih ys zs h1 h2⟩

/-- Two character lists that are each not below the other are equal. -/
theorem chlLt_conn : ∀ a b, chlLt a b = false → chlLt b a = false → a = b := by
  intro a
  induction a with
  | nil =>
    intro b hab _
    cases b with
    | nil => rfl
    | cons y ys => simp [chlLt] at hab
  | cons x xs ih =>
    intro b hab hba
    cases b with
    | nil => simp [chlLt] at hba
    | cons y ys =>
      simp only [chlLt, Bool.or_eq_false_iff, decide_eq_false_iff_not,
        Bool.and_eq_false_iff, beq_eq_false_iff_ne, ne_eq] at hab hba
      obtain ⟨h1, h2⟩ := hab
      obtain ⟨h3, h4⟩ := hba
      have hv : x.toNat = y.toNat := by omega
      have hxy : x = y := Char.ext (UInt32.toNat.inj hv)
      subst hxy
      rcases h2 with h2 | h2
      · exact absurd rfl h2
      · rcases h4 with h4 | h4
        · exact absurd rfl h4
        · exact congrArg (x :: ·) (ih ys h2 h4)

/-- `strLeB` is total. -/
theorem strLeB_total (a b : String) : strLeB a b = true ∨ strLeB b a = true := by
  unfold strLeB
  by_cases h : chlLt b.data a.data = true
  · right; simp [chlLt_asymm _ _ h]
  · left; simp only [Bool.not_eq_true] at h; simp [h]

/-- `strLeB` is transitive. -/
theorem strLeB_trans (a b c : String) (h1 : strLeB a b = true)
    (h2 : strLeB b c = true) : strLeB a c = true := by
  unfold strLeB at *
  simp only [Bool.not_eq_true'] at h1 h2 ⊢
  by_cases h : chlLt c.data a.data = true
  · exfalso
    by_cases hab : chlLt a.data b.data = true
    · by_cases hbc : chlLt b.data c.data = true
      · have := chlLt_trans _ _ _ hab hbc
        have := chlLt_asymm _ _ this
        simp_all
      · have hbceq : b.data = c.data :=
          chlLt_conn _ _ (by simpa using hbc) h2
        rw [hbceq] at hab
        have := chlLt_asymm _ _ hab
        simp_all
    · have habeq : a.data = b.data :=
        chlLt_conn _ _ (by simpa using hab) h1
      rw [habeq] at h
      have := chlLt_asymm _ _ h
      simp_all
  · simpa using h

/-- Unfolded characterisation of `sortKeyLe`. -/
theorem sortKeyLe_iff (a b : SortKey) : sortKeyLe a b = true ↔
    (a.1 < b.1 ∨ (a.1 = b.1 ∧ (a.2.1 < b.2.1 ∨ (a.2.1 = b.2.1 ∧
      (a.2.2.1 < b.2.2.1 ∨ (a.2.2.1 = b.2.2.1 ∧ strLeB a.2.2.2 b.2.2.2 = true)))))) := by
  obtain ⟨a1, a2, a3, a4⟩ := a
  obtain ⟨b1, b2, b3, b4⟩ := b
  simp only [sortKeyLe]
  split_ifs with h1 h2 h3 <;> simp_all

/-- `sortKeyLe` is total. -/
theorem sortKeyLe_total (a b : SortKey) : (sortKeyLe a b || sortKeyLe b a) = true := by
  rw [Bool.or_eq_true, sortKeyLe_iff, sortKeyLe_iff]
  obtain ⟨a1, a2, a3, a4⟩ := a
  obtain ⟨b1, b2, b3, b4⟩ := b
  simp only []
  rcases Nat.lt_trichotomy a1 b1 with h1 | h1 | h1
  · exact Or.inl (Or.inl h1)
  · subst h1
    rcases Nat.lt_trichotomy a2 b2 with h2 | h2 | h2
    · exact Or.inl (Or.inr ⟨rfl, Or.inl h2⟩)
    · subst h2
      rcases Int.lt_trichotomy a3 b3 with h3 | h3 | h3
      · exact Or.inl (Or.inr ⟨rfl, Or.inr ⟨rfl, Or.inl h3⟩⟩)
      · subst h3
        rcases strLeB_total a4 b4 with h4 | h4
        · exact Or.inl (Or.inr ⟨rfl, Or.inr ⟨rfl, Or.inr ⟨rfl, h4⟩⟩⟩)
        · exact Or.inr (Or.inr ⟨rfl, Or.inr ⟨rfl, Or.inr ⟨rfl, h4⟩⟩⟩)
      · exact Or.inr (Or.inr ⟨rfl, Or.inr ⟨rfl, Or.inl h3⟩⟩)
    · exact Or.inr (Or.inr ⟨rfl, Or.inl h2⟩)
  · exact Or.inr (Or.inl h1)

/-- `sortKeyLe` is transitive. -/
theorem sortKeyLe_trans (a b c : SortKey) (h1 : sortKeyLe a b = true)
    (h2 : sortKeyLe b c = true) : sortKeyLe a c = true := by
  rw [sortKeyLe_iff] at h1 h2 ⊢
  obtain ⟨a1, a2, a3, a4⟩ := a
  obtain ⟨b1, b2, b3, b4⟩ := b
  obtain ⟨c1, c2, c3, c4⟩ := c
  simp only [] at h1 h2 ⊢
  rcases h1 with h1 | ⟨rfl, h1⟩
  · rcases h2 with h2 | ⟨rfl, h2⟩
    · exact Or.inl (by omega)
    · exact Or.inl h1
  · rcases h2 with h2 | ⟨rfl, h2⟩
    · exact Or.inl h2
    · refine Or.inr ⟨rfl, ?_⟩
      rcases h1 with h1 | ⟨rfl, h1⟩
      · rcases h2 with h2 | ⟨rfl, h2⟩
        · exact Or.inl (by omega)
        · exact Or.inl h1
      · rcases h2 with h2 | ⟨rfl, h2⟩
        · exact Or.inl h2
        · refine Or.inr ⟨rfl, ?_⟩
          rcases h1 with h1 | ⟨rfl, h1⟩
          · rcases h2 with h2 | ⟨rfl, h2⟩
            · exact Or.inl (by omega)
            · exact Or.inl h1
          · rcases h2 with h2 | ⟨rfl, h2⟩
            · exact Or.inl h2
            · exact Or.inr ⟨rfl, strLeB_trans _ _ _ h1 h2⟩

/-- `findingLe` is total. -/
theorem findingLe_total (a b : ParsedFinding) : (findingLe a b || findingLe b a) = true :=
  sortKeyLe_total a.sortKey b.sortKey

/-- `findingLe` is transitive. -/
theorem findingLe_trans (a b c : ParsedFinding) (h1 : findingLe a b)
    (h2 : findingLe b c) : findingLe a c :=
  sortKeyLe_trans a.sortKey b.sortKey c.sortKey h1 h2

/-! ## Claim theorems -/

/-- C6: for every finding sequence and every limit configuration, applying
the ordering-and-truncation step twice yields the same sequence as applying
it once, and the step is exactly the client-visible findings component of
`_apply_findings_limit`. -/
theorem order_and_truncate_idempotent (cfg : NmapLimitConfig)
    (xs : List ParsedFinding) (r : ParsedNmapResult) :
    orderAndTruncate cfg (orderAndTruncate cfg xs) = orderAndTruncate cfg xs ∧
    (apply_findings_limit r cfg).1 = orderAndTruncate cfg r.findings := by
  constructor
  · have hs : (xs.mergeSort findingLe).Pairwise (fun a b => findingLe a b) :=
      List.sorted_mergeSort findingLe_trans findingLe_total xs
    unfold orderAndTruncate
    by_cases h : (xs.mergeSort findingLe).length > cfg.max_findings
    · simp only [if_pos h]
      have hs2 : ((xs.mergeSort findingLe).take cfg.max_findings).Pairwise
          (fun a b => findingLe a b) := hs.sublist (List.take_sublist _ _)
      rw [List.mergeSort_of_sorted hs2]
      have hlen : ((xs.mergeSort findingLe).take cfg.max_findings).length
          ≤ cfg.max_findings := by
        simp [List.length_take]
      rw [if_neg (by omega)]
    · simp only [if_neg h]
      rw [List.mergeSort_of_sorted hs]
      rw [if_neg h]
  · simp only [apply_findings_limit, orderAndTruncate]
    split <;> rfl

/-- C5: when the raw findings count exceeds the configured `max_findings`,
`_apply_findings_limit` forces the reported cap reason to `MAX_FINDINGS`
(overwriting whatever the parser recorded in `cap_info`) and returns exactly
the first `max_findings` findings of the sort-key-ascending ordering. -/
theorem apply_findings_limit_truncation_priority (r : ParsedNmapResult)
    (cfg : NmapLimitConfig) (h : r.findings.length > cfg.max_findings) :
    (apply_findings_limit r cfg).1
        = (r.findings.mergeSort findingLe).take cfg.max_findings ∧
    (apply_findings_limit r cfg).2.1.map CapsBlock.cap_reason
        = some CapReason.MAX_FINDINGS := by
  have hlen : (r.findings.mergeSort findingLe).length = r.findings.length :=
    List.length_mergeSort r.findings
  have ht : (r.findings.mergeSort findingLe).length > cfg.max_findings := by omega
  simp only [apply_findings_limit, if_pos ht]
  exact ⟨trivial, rfl⟩

/-- C5 witness: at a concrete over-limit result with a parser-recorded
`MAX_HOSTS` reason, truncation forces `MAX_FINDINGS`. -/
theorem apply_findings_limit_truncation_priority_witness :
    resultTwoCapped.findings.length > cfgOne.max_findings ∧
    ((apply_findings_limit resultTwoCapped cfgOne).1
        = (resultTwoCapped.findings.mergeSort findingLe).take cfgOne.max_findings ∧
     (apply_findings_limit resultTwoCapped cfgOne).2.1.map CapsBlock.cap_reason
        = some CapReason.MAX_FINDINGS) :=
  ⟨by decide,
   apply_findings_limit_truncation_priority resultTwoCapped cfgOne (by decide)⟩

/-- C10: `list_ingests` takes a newest-first prefix of the store, of length
at most `min(max(limit,0),16)`: a negative limit yields the empty list, a
limit above `MAX_STORED_RECORDS = 16` is clamped to 16, and an omitted limit
defaults to 16. -/
theorem list_ingests_clamp (limit : Int) (records : List IngestRecord) :
    MAX_STORED_RECORDS = 16 ∧
    list_ingests (some limit) records
        = records.reverse.take (max (min limit 16) 0).toNat ∧
    (list_ingests (some limit) records).length ≤ (min (max limit 0) 16).toNat ∧
    (limit < 0 → list_ingests (some limit) records = []) ∧
    (16 < limit → list_ingests (some limit) records = records.reverse.take 16) ∧
    list_ingests none records = records.reverse.take 16 := by
  refine ⟨rfl, ?_, ?_, ?_, ?_, ?_⟩
  · simp [list_ingests, MAX_STORED_RECORDS]
  · simp only [list_ingests, MAX_STORED_RECORDS, List.length_take]
    omega
  · intro h
    simp only [list_ingests, MAX_STORED_RECORDS]
    have h0 : (max (min limit (16 : Int)) 0).toNat = 0 := by omega
    norm_num at h0 ⊢
    simp [h0]
  · intro h
    simp only [list_ingests, MAX_STORED_RECORDS]
    have h16 : (max (min limit (16 : Int)) 0).toNat = 16 := by omega
    norm_num at h16 ⊢
    simp [h16]
  · simp [list_ingests, MAX_STORED_RECORDS]

/-- C10 witness: concrete limits exercise the negative and over-maximum
clauses. -/
theorem list_ingests_clamp_witness :
    ((-3 : Int) < 0 ∧ list_ingests (some (-3)) [] = []) ∧
    ((16 : Int) < 20 ∧
      list_ingests (some 20) [] = ([] : List IngestRecord).reverse.take 16) :=
  ⟨⟨by decide, (list_ingests_clamp (-3) []).2.2.2.1 (by decide)⟩,
   ⟨by decide, (list_ingests_clamp 20 []).2.2.2.2.1 (by decide)⟩⟩

/-- Membership is preserved by the retention cut of the store. -/
theorem mem_of_mem_retention {l : List IngestRecord} {rec : IngestRecord}
    (h : rec ∈ if l.length > MAX_STORED_RECORDS then
        l.drop (l.length - MAX_STORED_RECORDS) else l) :
    rec ∈ l := by
  split at h
  · exact List.mem_of_mem_drop h
  · exact h

/-- C8: the record built by `persist_ingest_record` stores a literal `False`
in `summary.parsed` regardless of the `parsed` argument, while its top-level
`parsed` field equals the argument; hence a store in which every record has
`summary.parsed = False` keeps that invariant after persisting. -/
theorem persist_ingest_record_summary_never_parsed
    (ingest_id format : String) (payload_bytes : Nat) (payload_sha256 : String)
    (parsed : Bool) (findings_count : Nat) (parser_version : String)
    (next_steps : List String) (created_at : String) (records : List IngestRecord)
    (hall : records.all (fun rec => rec.summary.parsed == false) = true) :
    (persist_ingest_record ingest_id format payload_bytes payload_sha256 parsed
        findings_count parser_version next_steps created_at records).1.summary.parsed
      = false ∧
    (persist_ingest_record ingest_id format payload_bytes payload_sha256 parsed
        findings_count parser_version next_steps created_at records).1.parsed
      = parsed ∧
    (persist_ingest_record ingest_id format payload_bytes payload_sha256 parsed
        findings_count parser_version next_steps created_at
        records).2.all (fun rec => rec.summary.parsed == false) = true := by
  refine ⟨rfl, rfl, ?_⟩
  rw [List.all_eq_true] at hall ⊢
  intro rec hrec
  simp only [persist_ingest_record] at hrec
  have hmem := mem_of_mem_retention hrec
  rcases List.mem_append.mp hmem with hin | hin
  · exact hall rec hin
  · rcases List.mem_singleton.mp hin with rfl
    rfl

/-- C8 witness: concrete persist call with `parsed = true` on a singleton
store. -/
theorem persist_ingest_record_summary_never_parsed_witness :
    ([] : List IngestRecord).all (fun rec => rec.summary.parsed == false) = true ∧
    ((persist_ingest_record "id1" "nmap_xml" 5 "digest" true 0 "noop-0.1" [] "t0"
        []).1.summary.parsed = false ∧
     (persist_ingest_record "id1" "nmap_xml" 5 "digest" true 0 "noop-0.1" [] "t0"
        []).1.parsed = true ∧
     (persist_ingest_record "id1" "nmap_xml" 5 "digest" true 0 "noop-0.1" [] "t0"
        []).2.all (fun rec => rec.summary.parsed == false) = true) :=
  ⟨by decide,
   persist_ingest_record_summary_never_parsed "id1" "nmap_xml" 5 "digest" true 0
     "noop-0.1" [] "t0" [] (by decide)⟩

/-- C3: `parse_xml_safely` fails in a fixed order, with a fixed payload-free
message per kind: oversize exactly when the byte length exceeds the limit;
otherwise the encoding error exactly when decoding fails; otherwise the
unsafe-declaration error exactly when the raw decoded text contains a
case-insensitive `<!DOCTYPE` or `<!ENTITY` marker (before any tree
construction); otherwise the malformed-XML error exactly when the low-level
parse fails; otherwise the parsed element. -/
theorem parse_xml_safely_error_order (decodeUtf8 : List Nat → Option String)
    (lib : XmlLib) (maxBytes : Nat) (xml_bytes : List Nat) :
    (parse_xml_safely decodeUtf8 lib maxBytes xml_bytes
        = .error "XML payload exceeds the maximum allowed size."
      ↔ xml_bytes.length > maxBytes) ∧
    (parse_xml_safely decodeUtf8 lib maxBytes xml_bytes
        = .error "XML payload is not valid UTF-8."
      ↔ xml_bytes.length ≤ maxBytes ∧ decodeUtf8 xml_bytes = none) ∧
    (∀ text, decodeUtf8 xml_bytes = some text →
      ((parse_xml_safely decodeUtf8 lib maxBytes xml_bytes
          = .error "XML payload contains forbidden declarations."
        ↔ xml_bytes.length ≤ maxBytes ∧ forbiddenXmlSearch text = true) ∧
       (parse_xml_safely decodeUtf8 lib maxBytes xml_bytes
          = .error "Malformed XML payload."
        ↔ xml_bytes.length ≤ maxBytes ∧ forbiddenXmlSearch text = false ∧
            lib.fromstring text = none) ∧
       (∀ root, parse_xml_safely decodeUtf8 lib maxBytes xml_bytes = .ok root
        ↔ xml_bytes.length ≤ maxBytes ∧ forbiddenXmlSearch text = false ∧
            lib.fromstring text = some root))) := by
  by_cases h1 : xml_bytes.length > maxBytes
  · have hres : parse_xml_safely decodeUtf8 lib maxBytes xml_bytes
        = .error "XML payload exceeds the maximum allowed size." := by
      unfold parse_xml_safely
      rw [if_pos h1]
    refine ⟨⟨fun _ => h1, fun _ => hres⟩,
            ⟨fun h => ?_, fun h2 => absurd h2.1 (by omega)⟩, ?_⟩
    · rw [hres] at h
      exact absurd (Except.error.inj h) (by decide)
    · intro text _
      refine ⟨⟨fun h => ?_, fun h2 => absurd h2.1 (by omega)⟩,
              ⟨fun h => ?_, fun h2 => absurd h2.1 (by omega)⟩,
              fun root => ⟨fun h => ?_, fun h2 => absurd h2.1 (by omega)⟩⟩
      · rw [hres] at h
        exact absurd (Except.error.inj h) (by decide)
      · rw [hres] at h
        exact absurd (Except.error.inj h) (by decide)
      · rw [hres] at h
        exact Except.noConfusion h
  · have h1' : xml_bytes.length ≤ maxBytes := by omega
    cases hdec : decodeUtf8 xml_bytes with
    | none =>
      have hres : parse_xml_safely decodeUtf8 lib maxBytes xml_bytes
          = .error "XML payload is not valid UTF-8." := by
        unfold parse_xml_safely
        rw [if_neg h1, hdec]
      refine ⟨⟨fun h => ?_, fun h => absurd h h1⟩,
              ⟨fun _ => ⟨h1', rfl⟩, fun _ => hres⟩, ?_⟩
      · rw [hres] at h
        exact absurd (Except.error.inj h) (by decide)
      · intro text htext
        cases htext
    | some text0 =>
      by_cases hu : forbiddenXmlSearch text0 = true
      · have hres : parse_xml_safely decodeUtf8 lib maxBytes xml_bytes
            = .error "XML payload contains forbidden declarations." := by
          unfold parse_xml_safely
          rw [if_neg h1, hdec]
          dsimp only
          rw [if_pos hu]
        refine ⟨⟨fun h => ?_, fun h => absurd h h1⟩,
                ⟨fun h => ?_, fun h2 => by cases h2.2⟩, ?_⟩
        · rw [hres] at h
          exact absurd (Except.error.inj h) (by decide)
        · rw [hres] at h
          exact absurd (Except.error.inj h) (by decide)
        · intro text htext
          obtain rfl : text0 = text := Option.some.inj htext
          refine ⟨⟨fun _ => ⟨h1', hu⟩, fun _ => hres⟩,
                  ⟨fun h => ?_, fun h2 => by rw [hu] at h2; cases h2.2.1⟩,
                  fun root => ⟨fun h => ?_, fun h2 => by rw [hu] at h2; cases h2.2.1⟩⟩
          · rw [hres] at h
            exact absurd (Except.error.inj h) (by decide)
          · rw [hres] at h
            exact Except.noConfusion h
      · have hu' : forbiddenXmlSearch text0 = false := by
          cases hval : forbiddenXmlSearch text0
          · rfl
          · exact absurd hval hu
        cases hfrom : lib.fromstring text0 with
        | none =>
          have hres : parse_xml_safely decodeUtf8 lib maxBytes xml_bytes
              = .error "Malformed XML payload." := by
            unfold parse_xml_safely
            rw [if_neg h1, hdec]
            dsimp only
            rw [if_neg hu, hfrom]
          refine ⟨⟨fun h => ?_, fun h => absurd h h1⟩,
                  ⟨fun h => ?_, fun h2 => by cases h2.2⟩, ?_⟩
          · rw [hres] at h
            exact absurd (Except.error.inj h) (by decide)
          · rw [hres] at h
            exact absurd (Except.error.inj h) (by decide)
          · intro text htext
            obtain rfl : text0 = text := Option.some.inj htext
            refine ⟨⟨fun h => ?_, fun h2 => by rw [hu'] at h2; cases h2.2⟩,
                    ⟨fun _ => ⟨h1', hu', hfrom⟩, fun _ => hres⟩,
                    fun root => ⟨fun h => ?_, fun h2 => by rw [hfrom] at h2; cases h2.2.2⟩⟩
            · rw [hres] at h
              exact absurd (Except.error.inj h) (by decide)
            · rw [hres] at h
              exact Except.noConfusion h
        | some root0 =>
          have hres : parse_xml_safely decodeUtf8 lib maxBytes xml_bytes
              = .ok root0 := by
            unfold parse_xml_safely
            rw [if_neg h1, hdec]
            dsimp only
            rw [if_neg hu, hfrom]
          refine ⟨⟨fun h => ?_, fun h => absurd h h1⟩,
                  ⟨fun h => ?_, fun h2 => by cases h2.2⟩, ?_⟩
          · rw [hres] at h
            exact Except.noConfusion h
          · rw [hres] at h
            exact Except.noConfusion h
          · intro text htext
            obtain rfl : text0 = text := Option.some.inj htext
            refine ⟨⟨fun h => ?_, fun h2 => by rw [hu'] at h2; cases h2.2⟩,
                    ⟨fun h => ?_, fun h2 => by rw [hfrom] at h2; cases h2.2.2⟩,
                    fun root => ⟨fun h => ?_, fun h2 => ?_⟩⟩
            · rw [hres] at h
              exact Except.noConfusion h
            · rw [hres] at h
              exact Except.noConfusion h
            · rw [hres] at h
              exact ⟨h1', hu', by rw [hfrom, Except.ok.inj h]⟩
            · rw [hfrom] at h2
              rw [hres]
              exact congrArg Except.ok (Option.some.inj h2.2.2)

/-- C3 witness: a four-byte payload under a ten-byte limit with a decoder
and a library stub that succeed parses to the stub element. -/
theorem parse_xml_safely_error_order_witness :
    decodeStub bytesA = some "<a/>" ∧
    parse_xml_safely decodeStub libOk 10 bytesA = .ok elemA :=
  ⟨rfl,
   (((parse_xml_safely_error_order decodeStub libOk 10 bytesA).2.2 "<a/>"
      rfl).2.2 elemA).mpr ⟨by decide, by decide, rfl⟩⟩

/-- The metadata block and the emitted events of `_apply_findings_limit`
exist exactly when a cap reason is determined. -/
theorem apply_findings_limit_metadata_iff (r : ParsedNmapResult)
    (cfg : NmapLimitConfig) :
    (apply_findings_limit r cfg).2.1.isSome = capDetermined r cfg ∧
    (apply_findings_limit r cfg).2.2.isEmpty = !capDetermined r cfg := by
  have hlen : (r.findings.mergeSort findingLe).length = r.findings.length :=
    List.length_mergeSort r.findings
  simp only [apply_findings_limit, capDetermined]
  by_cases htr : r.findings.length > cfg.max_findings
  · have ht : (r.findings.mergeSort findingLe).length > cfg.max_findings := by omega
    simp only [if_pos ht, decide_eq_true htr]
    simp
  · have ht : ¬(r.findings.mergeSort findingLe).length > cfg.max_findings := by omega
    simp only [if_neg ht, decide_eq_false htr]
    cases r.cap_info with
    | none => simp
    | some ci =>
      by_cases hc : ci.capped = true
      · obtain ⟨rr, hrr⟩ := Option.isSome_iff_exists.mp hc
        simp only [if_pos hc, hrr]
        simp [hc]
      · have hc' : ci.capped = false := by
          cases hval : ci.capped
          · rfl
          · exact absurd hval hc
        simp only [if_neg hc]
        simp [hc']

/-- C9: for every successful ingestion the response carries a `metadata` key
exactly when `_apply_findings_limit` determined a cap reason (parser-reported
cap or post-parse truncation); when no reason exists there is no caps block
and no cap audit event is produced for the attempt. -/
theorem ingest_metadata_iff_cap (sha : String → String) (ingestId : String)
    (parse : String → Except String ParsedNmapResult) (cfg : NmapLimitConfig)
    (payload : String) (r : ParsedNmapResult)
    (hsize : payload.utf8ByteSize ≤ cfg.max_xml_bytes)
    (hparse : parse payload = .ok r) :
    match ingest_nmap_public sha ingestId parse cfg "nmap_xml" payload with
    | (.ok resp, events) =>
        resp.metadata.isSome = capDetermined r cfg ∧
        events.isEmpty = !capDetermined r cfg
    | (.error _, _) => False := by
  have hfmt : ¬(("nmap_xml" : String) ≠ "nmap_xml"
      ∧ ("nmap_xml" : String) ≠ "synthetic_v1") := by
    intro h
    exact h.1 rfl
  rcases hafl : apply_findings_limit r cfg with ⟨fins, md, evs⟩
  obtain ⟨h1, h2⟩ := apply_findings_limit_metadata_iff r cfg
  rw [hafl] at h1 h2
  unfold ingest_nmap_public
  rw [if_neg hfmt, if_neg (by omega : ¬payload.utf8ByteSize > cfg.max_xml_bytes),
    hparse]
  dsimp only
  rw [hafl]
  exact ⟨h1, h2⟩

/-- C9 witness: an uncapped no-op parse of a one-byte payload yields no caps
block and no audit event. -/
theorem ingest_metadata_iff_cap_witness :
    ("x" : String).utf8ByteSize ≤ DEFAULT_NMAP_LIMITS.max_xml_bytes ∧
    parseNoopStub "x" = .ok (noopParse "") ∧
    (match ingest_nmap_public shaStub "ing" parseNoopStub DEFAULT_NMAP_LIMITS
        "nmap_xml" "x" with
     | (.ok resp, events) =>
         resp.metadata.isSome = capDetermined (noopParse "") DEFAULT_NMAP_LIMITS ∧
         events.isEmpty = !capDetermined (noopParse "") DEFAULT_NMAP_LIMITS
     | (.error _, _) => False) :=
  ⟨by decide, rfl,
   ingest_metadata_iff_cap shaStub "ing" parseNoopStub DEFAULT_NMAP_LIMITS "x"
     (noopParse "") (by decide) rfl⟩

/-- When every line is blank, identifier-bearing, or port-shaped, the
synthetic line loop succeeds with exactly one finding per port-shaped
non-identifier line. -/
theorem syntheticLines_ok (redact : String → String) (identMatch : String → Bool)
    (portMatch : String → Option (String × String)) :
    ∀ (lines : List String) (idx : Nat),
    lines.all (fun l => (pyStrip l == "") || identMatch (pyStrip l)
      || (portMatch (pyStrip l)).isSome) = true →
    match syntheticLines redact identMatch portMatch idx lines with
    | .ok fs => fs.length = lines.countP
        (fun l => !(pyStrip l == "") && !identMatch (pyStrip l)
          && (portMatch (pyStrip l)).isSome)
    | .error _ => False := by
  intro lines
  induction lines with
  | nil =>
    intro idx _
    simp [syntheticLines]
  | cons l rest ih =>
    intro idx hall
    simp only [List.all_cons, Bool.and_eq_true] at hall
    obtain ⟨hl, hrest⟩ := hall
    simp only [syntheticLines]
    by_cases hblank : pyStrip l = ""
    · rw [if_pos hblank]
      cases hrec : syntheticLines redact identMatch portMatch idx rest with
      | error e =>
        have hlen := ih idx hrest
        rw [hrec] at hlen
        exact hlen.elim
      | ok fs =>
        have hlen := ih idx hrest
        rw [hrec] at hlen
        dsimp only at hlen ⊢
        rw [hlen, List.countP_cons]
        simp [hblank]
    · rw [if_neg hblank]
      by_cases hident : identMatch (pyStrip l) = true
      · rw [if_pos hident]
        cases hrec : syntheticLines redact identMatch portMatch idx rest with
        | error e =>
          have hlen := ih idx hrest
          rw [hrec] at hlen
          exact hlen.elim
        | ok fs =>
          have hlen := ih idx hrest
          rw [hrec] at hlen
          dsimp only at hlen ⊢
          rw [hlen, List.countP_cons]
          simp [hident]
      · have hsome : (portMatch (pyStrip l)).isSome = true := by
          simp only [Bool.or_eq_true] at hl
          rcases hl with (h2 | h2) | h
          · exact absurd (by simpa using h2) hblank
          · exact absurd h2 hident
          · exact h
        obtain ⟨pr, hpr⟩ := Option.isSome_iff_exists.mp hsome
        obtain ⟨port, service⟩ := pr
        rw [if_neg hident, hpr]
        dsimp only
        cases hrec : syntheticLines redact identMatch portMatch (idx + 1) rest with
        | error e =>
          have hlen := ih (idx + 1) hrest
          rw [hrec] at hlen
          exact hlen.elim
        | ok fs =>
          have hlen := ih (idx + 1) hrest
          rw [hrec] at hlen
          dsimp only at hlen ⊢
          rw [List.length_cons, hlen, List.countP_cons]
          simp [hblank, hident, hpr]

/-- A non-blank, non-identifier line that fails the port pattern makes the
whole synthetic line loop fail. -/
theorem syntheticLines_error (redact : String → String) (identMatch : String → Bool)
    (portMatch : String → Option (String × String)) :
    ∀ (lines : List String) (idx : Nat),
    lines.any (fun l => !(pyStrip l == "") && !identMatch (pyStrip l)
      && (portMatch (pyStrip l)).isNone) = true →
    syntheticLines redact identMatch portMatch idx lines
      = .error "Synthetic payload line malformed." := by
  intro lines
  induction lines with
  | nil =>
    intro idx h
    simp at h
  | cons l rest ih =>
    intro idx hany
    simp only [List.any_cons, Bool.or_eq_true] at hany
    simp only [syntheticLines]
    rcases hany with hl | hrest
    · simp only [Bool.and_eq_true] at hl
      obtain ⟨⟨hnb, hni⟩, hnone⟩ := hl
      have hblank : ¬pyStrip l = "" := by simpa using hnb
      have hident : ¬identMatch (pyStrip l) = true := by simpa using hni
      have hn : portMatch (pyStrip l) = none := Option.isNone_iff_eq_none.mp hnone
      rw [if_neg hblank, if_neg hident, hn]
    · by_cases hblank : pyStrip l = ""
      · rw [if_pos hblank]
        exact ih idx hrest
      · rw [if_neg hblank]
        by_cases hident : identMatch (pyStrip l) = true
        · rw [if_pos hident]
          exact ih idx hrest
        · rw [if_neg hident]
          cases hp : portMatch (pyStrip l) with
          | none => rfl
          | some pr =>
            obtain ⟨port, service⟩ := pr
            dsimp only
            rw [ih (idx + 1) hrest]

/-- C7: for every payload handed to the `SyntheticParser`, every non-blank
line carrying an identifier-shaped token is silently skipped (no finding, no
error), every remaining line matching the port pattern contributes exactly
one finding, and any other non-blank line fails the entire parse with the
malformed-payload error (no partial result). -/
theorem synthetic_parse_line_classification (redact : String → String)
    (identMatch : String → Bool) (portMatch : String → Option (String × String))
    (payload : String) :
    ((pySplitlines payload).all (fun l => (pyStrip l == "") || identMatch (pyStrip l)
        || (portMatch (pyStrip l)).isSome) = true →
      match syntheticParse redact identMatch portMatch payload with
      | .ok r => r.findings.length = (pySplitlines payload).countP
          (fun l => !(pyStrip l == "") && !identMatch (pyStrip l)
            && (portMatch (pyStrip l)).isSome)
      | .error _ => False) ∧
    ((pySplitlines payload).any (fun l => !(pyStrip l == "") && !identMatch (pyStrip l)
        && (portMatch (pyStrip l)).isNone) = true →
      syntheticParse redact identMatch portMatch payload
        = .error "Synthetic payload line malformed.") := by
  constructor
  · intro hall
    unfold syntheticParse
    by_cases hemp : payload = ""
    · rw [if_pos hemp]
      subst hemp
      simp [pySplitlines, splitLinesAux]
    · rw [if_neg hemp]
      have hres := syntheticLines_ok redact identMatch portMatch
        (pySplitlines payload) 0 hall
      cases hrec : syntheticLines redact identMatch portMatch 0
          (pySplitlines payload) with
      | error e =>
        rw [hrec] at hres
        exact hres.elim
      | ok fs =>
        rw [hrec] at hres
        simpa using hres
  · intro hany
    unfold syntheticParse
    by_cases hemp : payload = ""
    · subst hemp
      simp [pySplitlines, splitLinesAux] at hany
    · rw [if_neg hemp,
        syntheticLines_error redact identMatch portMatch (pySplitlines payload) 0 hany]

/-- C7 witness: concrete matchers on a payload with a blank, an
identifier-bearing, and two port lines, and on a payload with a malformed
line. -/
theorem synthetic_parse_line_classification_witness :
    ((pySplitlines "ok\n  \nskip me\nok").all (fun l => (pyStrip l == "")
        || identStub (pyStrip l) || (portStub (pyStrip l)).isSome) = true ∧
     (match syntheticParse idStr identStub portStub "ok\n  \nskip me\nok" with
      | .ok r => r.findings.length = (pySplitlines "ok\n  \nskip me\nok").countP
          (fun l => !(pyStrip l == "") && !identStub (pyStrip l)
            && (portStub (pyStrip l)).isSome)
      | .error _ => False)) ∧
    ((pySplitlines "ok\nbad").any (fun l => !(pyStrip l == "")
        && !identStub (pyStrip l) && (portStub (pyStrip l)).isNone) = true ∧
     syntheticParse idStr identStub portStub "ok\nbad"
        = .error "Synthetic payload line malformed.") :=
  ⟨⟨by decide,
    (synthetic_parse_line_classification idStr identStub portStub
      "ok\n  \nskip me\nok").1 (by decide)⟩,
   ⟨by decide,
    (synthetic_parse_line_classification idStr identStub portStub
      "ok\nbad").2 (by decide)⟩⟩

/-- C2: on the repository's own status-filter regression payload (an up host
with one open and one closed TCP port, then a host with status `down`
carrying an open TCP port 80), the minimal real parser emits a finding for
the down host's port as well: `_finding_from_port` never consults the host
`status` element.  The closed port 23 and the non-finding elements contribute
nothing, so exactly the two open ports surface. -/
theorem minimal_walk_ignores_host_status :
    ((downHostExample.findChild "status").map (fun st => st.getD "state" "")
        = some "down") ∧
    (minimalRealWalk idStr DEFAULT_NMAP_LIMITS rootStatusExample).findings.map
        ParsedFinding.title = ["Port 22 open", "Port 80 open"] ∧
    (minimalRealWalk idStr DEFAULT_NMAP_LIMITS rootStatusExample).findings.length
        = 2 := by
  decide

/-- Whether `_finding_from_port` yields a finding depends only on the port
element, not on the redaction transform or the indices. -/
theorem finding_from_port_isSome (redact : String → String) (p : Xml)
    (hostIndex portIndex : Nat) :
    (finding_from_port redact p hostIndex portIndex).isSome
      = (finding_from_port idStr p 0 0).isSome := by
  unfold finding_from_port
  by_cases c1 : pyLower (p.getD "protocol" "") ≠ "tcp"
  · simp only [if_pos c1]
  · simp only [if_neg c1]
    cases hst : p.findChild "state" with
    | none => rfl
    | some st =>
      dsimp only
      by_cases c2 : pyLower (st.getD "state" "") ≠ "open"
      · simp only [if_pos c2]
      · simp only [if_neg c2]
        cases hpid : p.get "portid" with
        | none => rfl
        | some portId =>
          dsimp only
          by_cases c3 : portId = ""
          · simp only [if_pos c3]
          · simp only [if_neg c3]
            cases hse : p.findChild "service" with
            | none => rfl
            | some se =>
              dsimp only
              cases hn : se.get "name" with
              | none => rfl
              | some serviceName =>
                dsimp only
                by_cases c4 : serviceName = ""
                · simp only [if_pos c4]
                · simp only [if_neg c4]
                  rfl

/-- One pass of the port loop over a single finding-yielding port element,
below the host and port limits. -/
theorem processPorts_single (redact : String → String) (hi mh mpp mf hp2 pp fp : Nat)
    (acc : List ParsedFinding) (p : Xml) (f : ParsedFinding)
    (hf : finding_from_port redact p hi 0 = some f)
    (hmpp : 1 ≤ mpp) (hfp : fp < mf) :
    processPorts redact hi ⟨mh, mpp, mf, hp2, pp, fp, none⟩ 0 0 acc [p]
      = if mf ≤ fp + 1 then
          (⟨mh, mpp, mf, hp2, pp + 1, fp + 1, some CapReason.MAX_FINDINGS⟩,
           acc ++ [f], true)
        else (⟨mh, mpp, mf, hp2, pp + 1, fp + 1, none⟩, acc ++ [f], false) := by
  simp only [processPorts]
  rw [if_neg (by omega : ¬(0 : Nat) ≥ mpp)]
  rw [if_neg (by omega : ¬fp ≥ mf)]
  rw [hf]

/-- Processing hosts that each carry exactly one finding-yielding port, with
enough hosts to reach the findings cap and non-binding host/port limits,
stops exactly at the cap with `MAX_FINDINGS` recorded and all three counters
equal to the cap. -/
theorem processHosts_single_open (redact : String → String) :
    ∀ (hosts : List Xml) (mh mpp mf fp hi : Nat) (acc : List ParsedFinding),
    hosts.all singleOpenTcpHost = true →
    fp < mf → mf ≤ mh → 1 ≤ mpp →
    mf ≤ fp + hosts.length →
    ∃ acc2, processHosts redact ⟨mh, mpp, mf, fp, fp, fp, none⟩ hi acc hosts
        = (⟨mh, mpp, mf, mf, mf, mf, some CapReason.MAX_FINDINGS⟩, acc2)
      ∧ acc2.length = acc.length + (mf - fp) := by
  intro hosts
  induction hosts with
  | nil =>
    intro mh mpp mf fp hi acc _ h4 _ _ h7
    exact absurd h7 (by simp; omega)
  | cons h rest ih =>
    intro mh mpp mf fp hi acc hall h4 h5 h6 h7
    simp only [List.all_cons, Bool.and_eq_true] at hall
    obtain ⟨hh, hrest⟩ := hall
    simp only [processHosts]
    rw [if_neg (by omega : ¬fp ≥ mh)]
    unfold singleOpenTcpHost at hh
    cases hports : h.findChild "ports" with
    | none =>
      rw [hports] at hh
      cases hh
    | some ports =>
      rw [hports] at hh
      dsimp only at hh
      dsimp only
      cases hcp : ports.childrenTagged "port" with
      | nil =>
        rw [hcp] at hh
        cases hh
      | cons p0 ptail =>
        cases ptail with
        | cons p1 ptail2 =>
          rw [hcp] at hh
          dsimp only at hh
          cases hh
        | nil =>
          rw [hcp] at hh
          dsimp only at hh
          have hsome : (finding_from_port redact p0 hi 0).isSome = true := by
            rw [finding_from_port_isSome]
            exact hh
          obtain ⟨f, hf⟩ := Option.isSome_iff_exists.mp hsome
          rw [processPorts_single redact hi mh mpp mf (fp + 1) fp fp acc p0 f hf h6 h4]
          by_cases hlast : mf ≤ fp + 1
          · rw [if_pos hlast]
            dsimp only
            have hmf1 : mf = fp + 1 := by omega
            subst hmf1
            refine ⟨acc ++ [f], rfl, ?_⟩
            simp
          · rw [if_neg hlast]
            dsimp only
            have hrec := ih mh mpp mf (fp + 1) (hi + 1)
              (acc ++ [f]) hrest (by omega) h5 h6
              (by simp at h7 ⊢; omega)
            obtain ⟨acc2, heq, hlen⟩ := hrec
            refine ⟨acc2, heq, ?_⟩
            rw [hlen]
            simp
            omega

/-- Core computation shared by the C1 statements: under the real parser, a
within-limits payload whose tree holds exactly ten single-open-TCP-port hosts
and a findings limit of six yields a success response whose caps block names
`MAX_FINDINGS`, whose `counts.findings_processed` is 6, and which carries
exactly 6 findings. -/
theorem ingest_ten_hosts_core (redact sha : String → String) (ingestId : String)
    (lib : XmlLib) (cfg : NmapLimitConfig) (payload : String) (root : Xml)
    (hfrom : lib.fromstring payload = some root)
    (hsafe : forbiddenXmlSearch payload = false)
    (hsize : payload.utf8ByteSize ≤ cfg.max_xml_bytes)
    (hhosts : (root.descTagged "host").all singleOpenTcpHost = true)
    (hlen10 : (root.descTagged "host").length = 10)
    (hmf : cfg.max_findings = 6)
    (hmh : 10 ≤ cfg.max_hosts)
    (hmp : 1 ≤ cfg.max_ports_per_host) :
    match ingest_nmap_public sha ingestId (parserFun .realMinimal redact lib cfg)
        cfg "nmap_xml" payload with
    | (.ok resp, _) =>
        (match resp.metadata with
         | some caps => caps.cap_reason = CapReason.MAX_FINDINGS ∧
             dictGet "findings_processed" (caps.counts.getD []) = some 6
         | none => False) ∧
        resp.parsed_findings.length = 6 ∧
        resp.findings_count = 6
    | (.error _, _) => False := by
  obtain ⟨mb, mhosts, mports, mfind⟩ := cfg
  simp only [NmapLimitConfig.max_findings] at hmf
  simp only [NmapLimitConfig.max_hosts] at hmh
  simp only [NmapLimitConfig.max_ports_per_host] at hmp
  simp only [NmapLimitConfig.max_xml_bytes] at hsize
  subst hmf
  obtain ⟨acc2, heq, hlen⟩ := processHosts_single_open redact
    (root.descTagged "host") mhosts mports 6 0 0 [] hhosts (by omega) (by omega)
    hmp (by rw [hlen10]; omega)
  have hacc2 : acc2.length = 6 := by
    rw [hlen]
    simp
  have hwalk : minimalRealWalk redact ⟨mb, mhosts, mports, 6⟩ root
      = { parsed := !acc2.isEmpty, findings := acc2,
          parser_version := "real-minimal-0.2",
          cap_info := some ⟨some CapReason.MAX_FINDINGS, 6, 6, 6,
            mhosts, mports, 6⟩ } := by
    unfold minimalRealWalk
    rw [show initTracker ⟨mb, mhosts, mports, 6⟩
        = (⟨mhosts, mports, 6, 0, 0, 0, none⟩ : LimitTracker) from rfl]
    rw [heq]
    rfl
  have hgate : parseXmlSafelyText lib mb payload = .ok root := by
    unfold parseXmlSafelyText
    rw [if_neg (by omega : ¬payload.utf8ByteSize > mb)]
    rw [if_neg (show ¬forbiddenXmlSearch payload = true by
      rw [hsafe]; exact Bool.false_ne_true)]
    rw [hfrom]
  have hparse : parserFun .realMinimal redact lib ⟨mb, mhosts, mports, 6⟩ payload
      = .ok { parsed := !acc2.isEmpty, findings := acc2,
              parser_version := "real-minimal-0.2",
              cap_info := some ⟨some CapReason.MAX_FINDINGS, 6, 6, 6,
                mhosts, mports, 6⟩ } := by
    show minimalRealParse redact lib ⟨mb, mhosts, mports, 6⟩ payload = _
    unfold minimalRealParse
    rw [show (⟨mb, mhosts, mports, 6⟩ : NmapLimitConfig).max_xml_bytes = mb from rfl,
      hgate]
    dsimp only
    rw [hwalk]
  have hol : (acc2.mergeSort findingLe).length = 6 := by
    rw [List.length_mergeSort]
    exact hacc2
  have hafl : apply_findings_limit
      { parsed := !acc2.isEmpty, findings := acc2,
        parser_version := "real-minimal-0.2",
        cap_info := some ⟨some CapReason.MAX_FINDINGS, 6, 6, 6,
          mhosts, mports, 6⟩ }
      ⟨mb, mhosts, mports, 6⟩
      = (acc2.mergeSort findingLe,
         some (build_caps_metadata CapReason.MAX_FINDINGS ⟨mb, mhosts, mports, 6⟩
           (some [("hosts_processed", 6), ("ports_processed", 6),
                  ("findings_processed", 6)])),
         [emit_cap_event "MAX_FINDINGS" ⟨mb, mhosts, mports, 6⟩
           [("hosts_processed", 6), ("ports_processed", 6),
            ("findings_processed", 6)]
           (acc2.mergeSort findingLe)]) := by
    simp only [apply_findings_limit]
    have hnt : ¬(acc2.mergeSort findingLe).length > 6 := by
      rw [hol]
      omega
    simp only [if_neg hnt]
    rfl
  have hfmt : ¬(("nmap_xml" : String) ≠ "nmap_xml"
      ∧ ("nmap_xml" : String) ≠ "synthetic_v1") := by
    intro h
    exact h.1 rfl
  unfold ingest_nmap_public
  rw [if_neg hfmt, if_neg (by dsimp only; omega :
    ¬payload.utf8ByteSize > (⟨mb, mhosts, mports, 6⟩ : NmapLimitConfig).max_xml_bytes),
    hparse]
  dsimp only
  rw [hafl]
  dsimp only
  refine ⟨⟨rfl, rfl⟩, ?_, ?_⟩
  · rw [List.length_map]
    exact hol
  · exact hol

/-- C1 (amended): for a payload of ten hosts with one open TCP port each,
ingested with the `MinimalRealParser` under `max_findings = 6` and
non-binding host/port limits, the success response reports
`cap_reason = MAX_FINDINGS`, `counts.findings_processed = 6` (the parser
stops extraction at the cap, so only six findings are ever processed), and
exactly 6 findings in `parsed_findings`. -/
theorem ingest_ten_hosts_findings_cap (redact sha : String → String)
    (ingestId : String) (lib : XmlLib) (cfg : NmapLimitConfig) (payload : String)
    (root : Xml)
    (hfrom : lib.fromstring payload = some root)
    (hsafe : forbiddenXmlSearch payload = false)
    (hsize : payload.utf8ByteSize ≤ cfg.max_xml_bytes)
    (hhosts : (root.descTagged "host").all singleOpenTcpHost = true)
    (hlen10 : (root.descTagged "host").length = 10)
    (hmf : cfg.max_findings = 6)
    (hmh : 10 ≤ cfg.max_hosts)
    (hmp : 1 ≤ cfg.max_ports_per_host) :
    match ingest_nmap_public sha ingestId (parserFun .realMinimal redact lib cfg)
        cfg "nmap_xml" payload with
    | (.ok resp, _) =>
        (match resp.metadata with
         | some caps => caps.cap_reason = CapReason.MAX_FINDINGS ∧
             dictGet "findings_processed" (caps.counts.getD []) = some 6
         | none => False) ∧
        resp.parsed_findings.length = 6 ∧
        resp.findings_count = 6
    | (.error _, _) => False :=
  ingest_ten_hosts_core redact sha ingestId lib cfg payload root hfrom hsafe
    hsize hhosts hlen10 hmf hmh hmp

/-- C1 counterexample: at the concrete ten-host payload with
`max_findings = 6` the served counts report `findings_processed = 6`, not 10
as the original claim states. -/
theorem ingest_ten_hosts_counterexample :
    match ingest_nmap_public shaStub "ing0"
        (parserFun .realMinimal idStr libTen cfgSix) cfgSix "nmap_xml"
        "ten-hosts" with
    | (.ok resp, _) =>
        (match resp.metadata with
         | some caps => caps.cap_reason = CapReason.MAX_FINDINGS ∧
             dictGet "findings_processed" (caps.counts.getD []) = some 6 ∧
             dictGet "findings_processed" (caps.counts.getD []) ≠ some 10
         | none => False) ∧
        resp.parsed_findings.length = 6
    | (.error _, _) => False := by
  have h := ingest_ten_hosts_core idStr shaStub "ing0" libTen cfgSix "ten-hosts"
    rootTenHosts rfl (by decide) (by decide) (by decide) (by decide) rfl
    (by decide) (by decide)
  rcases hres : ingest_nmap_public shaStub "ing0"
      (parserFun .realMinimal idStr libTen cfgSix) cfgSix "nmap_xml"
      "ten-hosts" with ⟨out, evs⟩
  rw [hres] at h
  cases out with
  | error e => exact h
  | ok resp =>
    obtain ⟨hmeta, hlen6, _⟩ := h
    cases hm : resp.metadata with
    | none =>
      rw [hm] at hmeta
      exact hmeta.elim
    | some caps =>
      rw [hm] at hmeta
      obtain ⟨hcr, hfp⟩ := hmeta
      dsimp only
      rw [hm]
      exact ⟨⟨hcr, hfp, by rw [hfp]; decide⟩, hlen6⟩

/-- C1 witness: the amended claim applied at the concrete ten-host payload. -/
theorem ingest_ten_hosts_findings_cap_witness :
    (rootTenHosts.descTagged "host").length = 10 ∧
    cfgSix.max_findings = 6 ∧
    (match ingest_nmap_public shaStub "ingW"
        (parserFun .realMinimal idStr libTen cfgSix) cfgSix "nmap_xml"
        "ten-hosts" with
     | (.ok resp, _) =>
         (match resp.metadata with
          | some caps => caps.cap_reason = CapReason.MAX_FINDINGS ∧
              dictGet "findings_processed" (caps.counts.getD []) = some 6
          | none => False) ∧
         resp.parsed_findings.length = 6 ∧
         resp.findings_count = 6
     | (.error _, _) => False) :=
  ⟨by decide, rfl,
   ingest_ten_hosts_findings_cap idStr shaStub "ingW" libTen cfgSix "ten-hosts"
     rootTenHosts rfl (by decide) (by decide) (by decide) (by decide) rfl
     (by decide) (by decide)⟩

/-- The no-op parser result never carries findings or caps, so the limit
step is trivial on it. -/
theorem apply_findings_limit_noop (s : String) (cfg : NmapLimitConfig) :
    apply_findings_limit (noopParse s) cfg = ([], none, []) := by
  simp only [apply_findings_limit, noopParse]
  simp [List.mergeSort_nil]

/-- C4 (amended): for a payload containing a case-insensitive `<!DOCTYPE` or
`<!ENTITY` marker, when a safety-gate parser (`safe_xml` or `real_minimal`)
is configured, the request passes input validation, and the payload is
within the size limit, the served response is the sanitized invalid-input
error envelope; and under every configured parser no string of the served
response contains `<!DOCTYPE`. -/
theorem doctype_rejected_amended (scrub redact sha : String → String)
    (ingestId : String) (pk : ParserKind) (lib : XmlLib) (cfg : NmapLimitConfig)
    (inOk outOk : Bool) (payload : String)
    (hscrub : ∀ s, noDoctype s = true → noDoctype (scrub s) = true)
    (hsha : ∀ s, noDoctype (sha s) = true)
    (hid : noDoctype ingestId = true)
    (hforbid : forbiddenXmlSearch payload = true) :
    ((pk = .safeXml ∨ pk = .realMinimal) → inOk = true →
      payload.utf8ByteSize ≤ cfg.max_xml_bytes →
      (server_ingest_nmap_xml scrub redact sha ingestId pk lib cfg inOk outOk
          payload).1
        = Served.errorResp (scrub "error") (scrub "invalid_input")
            (scrub "Unable to process the ingestion payload.")) ∧
    (server_ingest_nmap_xml scrub redact sha ingestId pk lib cfg inOk outOk
        payload).1.strings.all noDoctype = true := by
  have hfmt : ¬(("nmap_xml" : String) ≠ "nmap_xml"
      ∧ ("nmap_xml" : String) ≠ "synthetic_v1") := by
    intro h
    exact h.1 rfl
  have hgateErr : ∀ mx, payload.utf8ByteSize ≤ mx →
      parseXmlSafelyText lib mx payload
        = .error "XML payload contains forbidden declarations." := by
    intro mx hmx
    unfold parseXmlSafelyText
    rw [if_neg (by omega : ¬payload.utf8ByteSize > mx), if_pos hforbid]
  have herr : ∀ r d : String, noDoctype r = true → noDoctype d = true →
      (sanitized_error scrub r d).strings.all noDoctype = true := by
    intro r d h1 h2
    simp only [sanitized_error, Served.strings, List.all_cons, List.all_nil,
      Bool.and_eq_true, Bool.and_true]
    exact ⟨hscrub "error" (by decide), hscrub r h1, hscrub d h2⟩
  constructor
  · rintro hpk rfl hsize
    have hparse : parserFun pk redact lib cfg payload
        = .error "XML payload contains forbidden declarations." := by
      rcases hpk with rfl | rfl
      · show safeXmlParse lib cfg.max_xml_bytes payload = _
        unfold safeXmlParse
        rw [hgateErr _ hsize]
      · show minimalRealParse redact lib cfg payload = _
        unfold minimalRealParse
        rw [hgateErr _ hsize]
    unfold server_ingest_nmap_xml
    rw [if_neg (by decide : ¬(!true) = true)]
    unfold ingest_nmap_public
    rw [if_neg hfmt, if_neg (by omega : ¬payload.utf8ByteSize > cfg.max_xml_bytes),
      hparse]
    rfl
  · cases inOk with
    | false =>
      unfold server_ingest_nmap_xml
      rw [if_pos (by decide : (!false) = true)]
      exact herr _ _ (by decide) (by decide)
    | true =>
      unfold server_ingest_nmap_xml
      rw [if_neg (by decide : ¬(!true) = true)]
      by_cases hsz : payload.utf8ByteSize > cfg.max_xml_bytes
      · have hing : ingest_nmap_public sha ingestId (parserFun pk redact lib cfg)
            cfg "nmap_xml" payload
            = (.error .tooLarge,
               [emit_cap_event CapReason.MAX_PAYLOAD_BYTES.value cfg
                 [("payload_bytes", payload.utf8ByteSize)] []]) := by
          unfold ingest_nmap_public
          rw [if_neg hfmt, if_pos hsz]
        rw [hing]
        exact herr _ _ (by decide) (by decide)
      · cases pk with
        | noop =>
          have hing : ingest_nmap_public sha ingestId
              (parserFun .noop redact lib cfg) cfg "nmap_xml" payload
              = (.ok { operation := "nmap_ingest", ingest_id := ingestId,
                       format := "nmap_xml",
                       summary_payload_bytes := payload.utf8ByteSize,
                       summary_payload_sha256 := sha payload,
                       summary_parsed := false, findings := [],
                       next_steps := NEXT_STEPS, parser_version := "noop-0.1",
                       findings_count := 0, parsed_findings := [],
                       metadata := none }, []) := by
            unfold ingest_nmap_public
            rw [if_neg hfmt, if_neg hsz]
            dsimp only [parserFun]
            rw [apply_findings_limit_noop]
            rfl
          rw [hing]
          dsimp only
          cases outOk with
          | false =>
            rw [if_pos (by decide : (!false) = true)]
            exact herr _ _ (by decide) (by decide)
          | true =>
            rw [if_neg (by decide : ¬(!true) = true)]
            simp only [Served.strings, NEXT_STEPS, List.append_nil, List.nil_append,
              List.flatMap_nil, List.all_cons, List.all_nil, List.all_append,
              Bool.and_eq_true, Bool.and_true, List.cons_append]
            exact ⟨by decide, hid, by decide, hsha payload, by decide, by decide,
              by decide⟩
        | safeXml =>
          have hparse : parserFun .safeXml redact lib cfg payload
              = .error "XML payload contains forbidden declarations." := by
            show safeXmlParse lib cfg.max_xml_bytes payload = _
            unfold safeXmlParse
            rw [hgateErr _ (by omega)]
          have hing : ingest_nmap_public sha ingestId
              (parserFun .safeXml redact lib cfg) cfg "nmap_xml" payload
              = (.error (.invalid "XML payload contains forbidden declarations."),
                 []) := by
            unfold ingest_nmap_public
            rw [if_neg hfmt, if_neg hsz, hparse]
          rw [hing]
          exact herr _ _ (by decide) (by decide)
        | realMinimal =>
          have hparse : parserFun .realMinimal redact lib cfg payload
              = .error "XML payload contains forbidden declarations." := by
            show minimalRealParse redact lib cfg payload = _
            unfold minimalRealParse
            rw [hgateErr _ (by omega)]
          have hing : ingest_nmap_public sha ingestId
              (parserFun .realMinimal redact lib cfg) cfg "nmap_xml" payload
              = (.error (.invalid "XML payload contains forbidden declarations."),
                 []) := by
            unfold ingest_nmap_public
            rw [if_neg hfmt, if_neg hsz, hparse]
          rw [hing]
          exact herr _ _ (by decide) (by decide)

/-- C4 counterexample: with the default `NoopNmapParser` configured, a
request whose payload contains `<!DOCTYPE` is ingested successfully — the
served response is not an error envelope, contradicting the claim as
stated for every ingestion request. -/
theorem doctype_noop_counterexample :
    forbiddenXmlSearch "<!DOCTYPE x>" = true ∧
    (server_ingest_nmap_xml idStr idStr shaStub "ing1" .noop libNone
        DEFAULT_NMAP_LIMITS true true "<!DOCTYPE x>").1.isError = false := by
  refine ⟨by decide, ?_⟩
  have hing : ingest_nmap_public shaStub "ing1"
      (parserFun .noop idStr libNone DEFAULT_NMAP_LIMITS) DEFAULT_NMAP_LIMITS
      "nmap_xml" "<!DOCTYPE x>"
      = (.ok { operation := "nmap_ingest", ingest_id := "ing1",
               format := "nmap_xml",
               summary_payload_bytes := ("<!DOCTYPE x>" : String).utf8ByteSize,
               summary_payload_sha256 := shaStub "<!DOCTYPE x>",
               summary_parsed := false, findings := [],
               next_steps := NEXT_STEPS, parser_version := "noop-0.1",
               findings_count := 0, parsed_findings := [],
               metadata := none }, []) := by
    unfold ingest_nmap_public
    rw [if_neg (by decide), if_neg (by decide)]
    dsimp only [parserFun]
    rw [apply_findings_limit_noop]
    rfl
  unfold server_ingest_nmap_xml
  rw [if_neg (by decide : ¬(!true) = true), hing]
  rfl

/-- C4 witness: the amended claim applied at a concrete `<!DOCTYPE` payload
under the `real_minimal` parser. -/
theorem doctype_rejected_amended_witness :
    forbiddenXmlSearch "<!DOCTYPE x>" = true ∧
    ("<!DOCTYPE x>" : String).utf8ByteSize ≤ DEFAULT_NMAP_LIMITS.max_xml_bytes ∧
    (server_ingest_nmap_xml idStr idStr shaStub "ingX" .realMinimal libNone
        DEFAULT_NMAP_LIMITS true true "<!DOCTYPE x>").1
      = Served.errorResp (idStr "error") (idStr "invalid_input")
          (idStr "Unable to process the ingestion payload.") ∧
    (server_ingest_nmap_xml idStr idStr shaStub "ingX" .realMinimal libNone
        DEFAULT_NMAP_LIMITS true true "<!DOCTYPE x>").1.strings.all noDoctype
      = true :=
  ⟨by decide, by decide,
   (doctype_rejected_amended idStr idStr shaStub "ingX" .realMinimal libNone
      DEFAULT_NMAP_LIMITS true true "<!DOCTYPE x>" (fun _ h => h)
      (fun _ => by show noDoctype "digest" = true; decide) (by decide)
      (by decide)).1 (Or.inr rfl) rfl (by decide),
   (doctype_rejected_amended idStr idStr shaStub "ingX" .realMinimal libNone
      DEFAULT_NMAP_LIMITS true true "<!DOCTYPE x>" (fun _ h => h)
      (fun _ => by show noDoctype "digest" = true; decide) (by decide)
      (by decide)).2⟩
